import Mathlib

/-!
Verification of the gnuplot summary-plot module of criterion.rs
(`src/plot/gnuplot_backend/summary.rs`).

The module contains two pipelines, `line_comparison` and `violin`, plus the
helper `format_bytes`.  Rust `f64` values are embedded as rationals (`ℚ`)
except where a claim hinges on IEEE special values, where a dedicated
carrier `F64` with `nan`/`inf` is used.  Fallible operations (the `unwrap`
panic points of the Rust code) are embedded in `Except String`.
-/

namespace Summary

/-- `report::BenchmarkId` as used by `summary.rs`: an optional function
identity (`function_id`, the grouping key), an optional numeric parameter
value (`as_number`), and a human-readable title (`as_title`). -/
structure BenchmarkId where
  function_id : Option String
  number : Option ℚ
  title : String
deriving DecidableEq

/-- One input curve: a `BenchmarkId` paired with its raw sample
(`&(&BenchmarkId, Vec<f64>)` in the source). -/
abbrev Curve := BenchmarkId × List ℚ

/-- Modelled from the spec: `Sample::mean` (the stats module is not part of
the verified source) — the arithmetic mean of the raw sample values. -/
def mean (s : List ℚ) : ℚ := s.sum / s.length

/-- The configuration fields of `PlotConfiguration` consumed by the
embedded pipelines: the `speedup` flag, the designated baseline identity
`speedup_id`, and the explicit plot `label` override. -/
structure PlotConfiguration where
  speedup : Bool
  speedup_id : String
  label : String

/-- Rust's rounding used by the `{:.0}` float format: round to the nearest
integer, ties to even. -/
def round_half_even (q : ℚ) : ℤ :=
  let f := ⌊q⌋
  let r := q - f
  if r < 1 / 2 then f
  else if 1 / 2 < r then f + 1
  else if f % 2 = 0 then f else f + 1

/-- `format!("{:.0}", q)` for a finite value: the rounded integer rendered
with no decimal point.  (The sign of IEEE negative zero is not modelled;
no claim depends on it.) -/
def fmt_f0 (q : ℚ) : String := toString (round_half_even q)

/-- `format_bytes` (summary.rs lines 37-47): renders a byte count in
`b`/`Kb`/`Mb`/`Gb` with thresholds 1024, 1024², 1024³, the scaled value
printed via `{:.0}`. -/
def format_bytes (bytes : ℤ) : String :=
  if bytes < 1024 then
    toString bytes ++ "b"
  else if bytes < 1024 * 1024 then
    fmt_f0 ((bytes : ℚ) / 1024) ++ "Kb"
  else if bytes < 1024 * 1024 * 1024 then
    fmt_f0 ((bytes : ℚ) / (1024 * 1024)) ++ "Mb"
  else
    fmt_f0 ((bytes : ℚ) / (1024 * 1024 * 1024)) ++ "Gb"

/-- The unit index (0 = b, 1 = Kb, 2 = Mb, 3 = Gb) chosen by
`format_bytes`'s branch structure. -/
def code_unit (bytes : ℤ) : ℕ :=
  if bytes < 1024 then 0
  else if bytes < 1024 * 1024 then 1
  else if bytes < 1024 * 1024 * 1024 then 2
  else 3

/-- Modelled from the spec: the largest unit among b, Kb, Mb, Gb in which
the value is at least 1, i.e. the largest `u ≤ 3` with `1024^u ≤ bytes`
(0 when none qualifies). -/
def spec_unit (bytes : ℤ) : ℕ :=
  if 1024 * 1024 * 1024 ≤ bytes then 3
  else if 1024 * 1024 ≤ bytes then 2
  else if 1024 ≤ bytes then 1
  else 0

/-- The comparison plot's title (summary.rs lines 78-83): the configured
label when non-empty, otherwise the escaped title followed by the literal
suffix of the source, `": Comparsion"` (sic).  The text-escaping
collaborator is a parameter `esc`. -/
def line_title (esc : String → String) (conf_label : String) (title : String) : String :=
  if conf_label ≠ "" then conf_label else esc title ++ ": Comparsion"

/-- The violin plot's title (summary.rs line 288): the escaped title
followed by `": Violin plot"`. -/
def violin_title (esc : String → String) (title : String) : String :=
  esc title ++ ": Violin plot"

/-- Rust's saturating `as u64` cast of a (finite) `f64`: negative values
clamp to 0, values past `u64::MAX` clamp to `u64::MAX`, and everything in
between is truncated toward zero. -/
def u64_cast (x : ℚ) : ℕ :=
  if x < 0 then 0 else min ⌊x⌋.toNat (2 ^ 64 - 1)

/-- itertools' `group_by` as used on the curve slice: cut the input into
maximal consecutive runs of elements whose key `f` agrees, yielding
`(key, run)` pairs in input order. -/
def groupRuns {α β : Type} [DecidableEq β] (f : α → β) : List α → List (β × List α)
  | [] => []
  | a :: as =>
    match groupRuns f as with
    | [] => [(f a, [a])]
    | (k, g) :: rest =>
      if f a = k then (f a, a :: g) :: rest else (f a, [a]) :: (k, g) :: rest

/-- `Vec::sort_by` insertion step for the non-speedup tuples, comparing by
the first component (`ax.partial_cmp(&bx)`; the comparison is total on the
rational embedding, so the `unwrap_or(Ordering::Less)` branch is never
taken). -/
def insert_by_x (p : ℚ × ℚ) : List (ℚ × ℚ) → List (ℚ × ℚ)
  | [] => [p]
  | q :: qs => if q.1 ≤ p.1 then q :: insert_by_x p qs else p :: q :: qs

/-- `tuples.sort_by(...)` (summary.rs line 211): a stable sort of the
`(x, y)` tuples by ascending `x`, modelled as insertion sort (the slice
sort's contract: the output is sorted by the comparator). -/
def sort_by_x : List (ℚ × ℚ) → List (ℚ × ℚ)
  | [] => []
  | p :: ps => insert_by_x p (sort_by_x ps)

/-- `id.as_number().unwrap()` / `function_id.clone().unwrap()`: the panic
point of a missing value, as an `Except`. -/
def unwrap_opt {α : Type} (o : Option α) : Except String α :=
  match o with
  | some a => Except.ok a
  | none => Except.error "unwrap none"

/-- The tuples of one non-speedup group (summary.rs lines 201-210):
`(as_number().unwrap(), mean of the sample)` for each curve. -/
def group_tuples (g : List Curve) : Except String (List (ℚ × ℚ)) :=
  g.mapM (fun c => (unwrap_opt c.1.number).map (fun x => (x, mean c.2)))

/-- One non-speedup group's emitted series coordinates: its tuples sorted
by ascending x.  (The subsequent `scale_values` call of the external unit
formatter rescales the y values in place and is not modelled; it does not
touch the x coordinates.) -/
def line_group_series (g : List Curve) : Except String (List (ℚ × ℚ)) :=
  (group_tuples g).map sort_by_x

/-- `BTreeMap<u64, f64>` lookup. -/
def btree_get (k : ℕ) : List (ℕ × ℚ) → Option ℚ
  | [] => none
  | (j, v) :: rest => if k = j then some v else btree_get k rest

/-- `BTreeMap<u64, f64>` insert-or-replace, keeping keys in ascending
order (the map iterates in ascending key order). -/
def btree_insert (k : ℕ) (v : ℚ) : List (ℕ × ℚ) → List (ℕ × ℚ)
  | [] => [(k, v)]
  | (j, w) :: rest =>
    if k < j then (k, v) :: (j, w) :: rest
    else if k = j then (k, v) :: rest
    else (j, w) :: btree_insert k v rest

/-- One iteration of the speedup accumulation loop (summary.rs lines
164-174) on a tuple `(x, y, id_func)`: key `x as u64`; if the key is
present, replace the stored value by `y / stored` when the tuple's
function identity equals the configured `speedup_id`, by `stored / y`
otherwise; seed with `y` when absent. -/
def speedup_step (spid : String) (m : List (ℕ × ℚ)) (t : ℚ × ℚ × String) : List (ℕ × ℚ) :=
  let k := u64_cast t.1
  match btree_get k m with
  | some val =>
    if t.2.2 = spid then btree_insert k (t.2.1 / val) m else btree_insert k (val / t.2.1) m
  | none => btree_insert k t.2.1 m

/-- The speedup map after processing all tuples, starting from the empty
`BTreeMap`.  (The loop's parallel running-maximum tracking feeds only the
external unit formatter and is not modelled.) -/
def speedup_data (spid : String) (ts : List (ℚ × ℚ × String)) : List (ℕ × ℚ) :=
  ts.foldl (speedup_step spid) []

/-- The speedup tuples (summary.rs lines 153-162): per `group_by` group,
`(as_number().unwrap(), mean, function_id.unwrap())` per curve; the groups
are consumed in order, so the flattened tuple order is the input order. -/
def speedup_tuples (curves : List Curve) : Except String (List (ℚ × ℚ × String)) :=
  (((groupRuns (fun c : Curve => c.1.function_id) curves).map Prod.snd).flatten).mapM
    (fun c => do
      let idf ← unwrap_opt c.1.function_id
      let x ← unwrap_opt c.1.number
      Except.ok (x, mean c.2, idf))

/-- The series-coordinate payload of `line_comparison` (summary.rs lines
150-233): in speedup mode a single series read off the accumulated map in
ascending key order, otherwise one sorted series per consecutive group.
Escaping, colors and the plot assembly mutate only presentation metadata;
the external render dispatch cannot fail in a way visible here. -/
def line_comparison_run (conf : PlotConfiguration) (curves : List Curve) :
    Except String (List (List (ℚ × ℚ))) :=
  if conf.speedup then
    (speedup_tuples curves).map (fun ts =>
      [(speedup_data conf.speedup_id ts).map (fun p => ((p.1 : ℚ), p.2))])
  else
    (groupRuns (fun c : Curve => c.1.function_id) curves).mapM
      (fun g => line_group_series g.2)

/-- `Sample::max`, modelled from the spec ("the maximum y in that
sequence"; the stats module is not part of the verified source): the
maximum of the values, folded over the list. -/
def sample_max : List ℚ → ℚ
  | [] => 0
  | y :: ys => ys.foldl max y

/-- The violin normalization (summary.rs lines 253-257): divide every
density value by the peak density of its own curve. -/
def normalize_kde_y (ys : List ℚ) : List ℚ :=
  ys.map (fun y => y / sample_max ys)

/-- The combined positive x values of all normalized KDE curves
(summary.rs lines 250-265): curves are traversed in reverse input order,
their KDE x coordinates flattened and filtered to the strictly positive
ones.  The density-estimation collaborator is the parameter `kdeF`. -/
def violin_xs (kdeF : List ℚ → List ℚ × List ℚ) (curves : List Curve) : List ℚ :=
  (((curves.reverse.map
      (fun c => ((kdeF c.2).1, normalize_kde_y (kdeF c.2).2))).map Prod.fst).flatten).filter
    (fun x => 0 < x)

/-- The min/max scan of `violin` (summary.rs lines 266-276): the first
element is taken by `xs.next().unwrap()` — the panic point on an empty
iterator — and the rest update `min`/`max` by the `if e < min ... else if
e > max` loop. -/
def violin_min_max : List ℚ → Except String (ℚ × ℚ)
  | [] => Except.error "unwrap none"
  | first :: rest =>
    Except.ok (rest.foldl
      (fun mm e => if e < mm.1 then (e, mm.2) else if mm.2 < e then (mm.1, e) else mm)
      (first, first))

/-- The fallible core of `violin`: the combined axis range from the
positive x values.  Everything after it (unit scaling of the x axis, lane
layout, plot assembly, render dispatch) cannot fail in a way visible
here. -/
def violin_run (kdeF : List ℚ → List ℚ × List ℚ) (curves : List Curve) :
    Except String (ℚ × ℚ) :=
  violin_min_max (violin_xs kdeF curves)

/-- An `f64` with the IEEE special values needed by the degenerate violin
normalization; finite values carry their exact rational magnitude. -/
inductive F64 where
  | nan : F64
  | inf : F64
  | ninf : F64
  | fin : ℚ → F64
deriving DecidableEq

/-- IEEE-754 division for finite operands: `0/0` is NaN, `±a/0` is `±∞`,
and a finite quotient is exact.  Non-finite operands do not occur here
(the density-estimation collaborator returns finite values) and default to
NaN. -/
def F64.div : F64 → F64 → F64
  | .fin a, .fin b =>
    if b = 0 then (if a = 0 then .nan else if 0 < a then .inf else .ninf)
    else .fin (a / b)
  | _, _ => .nan

/-- The violin normalization under IEEE semantics: each density value is
divided by the curve's peak density with `F64.div`, exposing the NaN
produced when the peak is zero. -/
def normalize_kde_y_f64 (ys : List ℚ) : List F64 :=
  ys.map (fun y => F64.div (.fin y) (.fin (sample_max ys)))

/-- The effect of one `speedup_step` on the single map entry it touches
(used to characterize the accumulation one key at a time). -/
def speedup_upd (spid : String) (v : Option ℚ) (t : ℚ × ℚ × String) : Option ℚ :=
  match v with
  | some val => if t.2.2 = spid then some (t.2.1 / val) else some (val / t.2.1)
  | none => some t.2.1

/-- Test fixture: a curve with the given function identity, parameter
value 1 and a one-element sample. -/
def curve_of (o : Option String) : Curve := (⟨o, some 1, "t"⟩, [1])

/-- Test fixture: the five-curve input whose function identities read
A, A, B, B, A. -/
def runABBA : List Curve :=
  [curve_of (some "A"), curve_of (some "A"), curve_of (some "B"),
   curve_of (some "B"), curve_of (some "A")]

/-- Test fixture: a curve with the given identity, parameter value and
sample. -/
def curve_n (o : Option String) (x : ℚ) (s : List ℚ) : Curve := (⟨o, some x, "t"⟩, s)

/-- Test fixture: one group of two curves whose parameter values arrive
out of order (5 before 3). -/
def pair_group : List Curve :=
  [curve_n (some "A") 5 [1], curve_n (some "A") 3 [2, 4]]

/-! ### Properties of the consecutive-run grouping -/

theorem groupRuns_flatten {α β : Type} [DecidableEq β] (f : α → β) (l : List α) :
    ((groupRuns f l).map Prod.snd).flatten = l := by
  induction l with
  | nil => rfl
  | cons a as ih =>
    cases h : groupRuns f as with
    | nil =>
      rw [h] at ih
      simp only [List.map_nil, List.flatten_nil] at ih
      simp [groupRuns, h, ← ih]
    | cons p rest =>
      obtain ⟨k, g⟩ := p
      rw [h] at ih
      simp only [List.map_cons, List.flatten_cons] at ih
      by_cases hf : f a = k <;>
        simp [groupRuns, h, hf, ih]

theorem groupRuns_chain {α β : Type} [DecidableEq β] (f : α → β) (l : List α) :
    List.Chain' (fun p q => p.1 ≠ q.1) (groupRuns f l) := by
  induction l with
  | nil => simp [groupRuns]
  | cons a as ih =>
    cases h : groupRuns f as with
    | nil => simp [groupRuns, h]
    | cons p rest =>
      obtain ⟨k, g⟩ := p
      rw [h] at ih
      by_cases hf : f a = k
      · simp only [groupRuns, h, if_pos hf]
        rw [List.chain'_cons'] at ih ⊢
        refine ⟨?_, ih.2⟩
        intro q hq
        rw [hf]
        exact ih.1 q hq
      · simp only [groupRuns, h, if_neg hf]
        exact List.chain'_cons.mpr ⟨hf, ih⟩

theorem groupRuns_runs {α β : Type} [DecidableEq β] (f : α → β) (l : List α) :
    ∀ p ∈ groupRuns f l, p.2 ≠ [] ∧ ∀ a ∈ p.2, f a = p.1 := by
  induction l with
  | nil => simp [groupRuns]
  | cons a as ih =>
    cases h : groupRuns f as with
    | nil =>
      simp [groupRuns, h]
    | cons p0 rest =>
      obtain ⟨k, g⟩ := p0
      rw [h] at ih
      by_cases hf : f a = k
      · simp only [groupRuns, h, if_pos hf]
        intro p hp
        rcases List.mem_cons.mp hp with rfl | hp'
        · refine ⟨by simp, ?_⟩
          intro x hx
          rcases List.mem_cons.mp hx with rfl | hx'
          · rfl
          · have := (ih (k, g) (List.mem_cons_self _ _)).2 x hx'
            simpa [hf] using this
        · exact ih p (List.mem_cons_of_mem _ hp')
      · simp only [groupRuns, h, if_neg hf]
        intro p hp
        rcases List.mem_cons.mp hp with rfl | hp'
        · exact ⟨by simp, by simp⟩
        · exact ih p hp'

/-! ### Properties of the tuple sort -/

theorem mem_insert_by_x {p b : ℚ × ℚ} :
    ∀ {l : List (ℚ × ℚ)}, b ∈ insert_by_x p l ↔ b = p ∨ b ∈ l := by
  intro l
  induction l with
  | nil => simp [insert_by_x]
  | cons q qs ih =>
    rw [insert_by_x]
    split
    · simp only [List.mem_cons, ih]
      tauto
    · simp only [List.mem_cons]

theorem pairwise_insert_by_x (p : ℚ × ℚ) (l : List (ℚ × ℚ))
    (h : l.Pairwise (fun a b => a.1 ≤ b.1)) :
    (insert_by_x p l).Pairwise (fun a b => a.1 ≤ b.1) := by
  induction l with
  | nil => simp [insert_by_x]
  | cons q qs ih =>
    rcases List.pairwise_cons.mp h with ⟨hq, hqs⟩
    rw [insert_by_x]
    split
    case isTrue hle =>
      refine List.pairwise_cons.mpr ⟨?_, ih hqs⟩
      intro b hb
      rcases mem_insert_by_x.mp hb with rfl | hb'
      · exact hle
      · exact hq b hb'
    case isFalse hgt =>
      refine List.pairwise_cons.mpr ⟨?_, h⟩
      intro b hb
      rcases List.mem_cons.mp hb with rfl | hb'
      · exact le_of_not_le hgt
      · exact le_trans (le_of_not_le hgt) (hq b hb')

theorem pairwise_sort_by_x :
    ∀ l : List (ℚ × ℚ), (sort_by_x l).Pairwise (fun a b => a.1 ≤ b.1)
  | [] => by simp [sort_by_x]
  | p :: ps => pairwise_insert_by_x p _ (pairwise_sort_by_x ps)

/-! ### Properties of the sample maximum -/

theorem le_foldl_max (l : List ℚ) : ∀ a : ℚ, a ≤ l.foldl max a := by
  induction l with
  | nil => intro a; simp
  | cons b l ih => intro a; exact le_trans (le_max_left a b) (ih (max a b))

theorem mem_le_foldl_max (l : List ℚ) : ∀ a b : ℚ, b ∈ l → b ≤ l.foldl max a := by
  induction l with
  | nil => intro a b hb; cases hb
  | cons c l ih =>
    intro a b hb
    rcases List.mem_cons.mp hb with rfl | hb'
    · exact le_trans (le_max_right a b) (le_foldl_max l _)
    · exact ih _ b hb'

theorem le_sample_max {ys : List ℚ} {y : ℚ} (hy : y ∈ ys) : y ≤ sample_max ys := by
  cases ys with
  | nil => cases hy
  | cons a l =>
    rcases List.mem_cons.mp hy with rfl | h
    · exact le_foldl_max l y
    · exact mem_le_foldl_max l a y h

theorem foldl_max_map_div (M : ℚ) (hM : 0 < M) (l : List ℚ) :
    ∀ a : ℚ, (l.map (fun y => y / M)).foldl max (a / M) = l.foldl max a / M := by
  induction l with
  | nil => intro a; rfl
  | cons b l ih =>
    intro a
    have hmax : max (a / M) (b / M) = max a b / M := by
      rcases le_total a b with h | h
      · rw [max_eq_right h, max_eq_right ((div_le_div_iff_of_pos_right hM).mpr h)]
      · rw [max_eq_left h, max_eq_left ((div_le_div_iff_of_pos_right hM).mpr h)]
    simp only [List.map_cons, List.foldl_cons, hmax, ih]

theorem sample_max_normalize {ys : List ℚ} (hM : 0 < sample_max ys) :
    sample_max (normalize_kde_y ys) = 1 := by
  cases ys with
  | nil => simp [sample_max] at hM
  | cons a l =>
    have h := foldl_max_map_div (sample_max (a :: l)) hM l a
    simp only [normalize_kde_y, List.map_cons, sample_max] at h ⊢
    rw [h]
    exact div_self (ne_of_gt hM)

theorem normalize_mem_bounds {ys : List ℚ} (hM : 0 < sample_max ys)
    (hnn : ∀ y ∈ ys, 0 ≤ y) : ∀ v ∈ normalize_kde_y ys, 0 ≤ v ∧ v ≤ 1 := by
  intro v hv
  rcases List.mem_map.mp hv with ⟨y, hy, rfl⟩
  exact ⟨div_nonneg (hnn y hy) (le_of_lt hM),
    (div_le_one hM).mpr (le_sample_max hy)⟩

theorem foldl_max_zero : ∀ l : List ℚ, (∀ y ∈ l, y = 0) → l.foldl max 0 = 0 := by
  intro l
  induction l with
  | nil => intro _; rfl
  | cons b l ih =>
    intro h
    have hb : b = 0 := h b (List.mem_cons_self _ _)
    have hl : ∀ y ∈ l, y = (0 : ℚ) := fun y hy => h y (List.mem_cons_of_mem _ hy)
    simp only [List.foldl_cons, hb, max_self]
    exact ih hl

theorem sample_max_all_zero {ys : List ℚ} (hz : ∀ y ∈ ys, y = 0) :
    sample_max ys = 0 := by
  cases ys with
  | nil => rfl
  | cons a l =>
    have ha : a = 0 := hz a (List.mem_cons_self _ _)
    have hl : ∀ y ∈ l, y = (0 : ℚ) := fun y hy => hz y (List.mem_cons_of_mem _ hy)
    simp only [sample_max, ha]
    exact foldl_max_zero l hl

/-! ### Properties of the speedup accumulation map -/

theorem btree_get_insert_self (k : ℕ) (v : ℚ) :
    ∀ m, btree_get k (btree_insert k v m) = some v := by
  intro m
  induction m with
  | nil => simp [btree_get, btree_insert]
  | cons p rest ih =>
    obtain ⟨j, w⟩ := p
    rw [btree_insert]
    by_cases h1 : k < j
    · simp [if_pos h1, btree_get]
    · rw [if_neg h1]
      by_cases h2 : k = j
      · simp [if_pos h2, btree_get]
      · simp [if_neg h2, btree_get, h2, ih]

theorem btree_get_insert_ne (k j : ℕ) (v : ℚ) (hne : j ≠ k) :
    ∀ m, btree_get j (btree_insert k v m) = btree_get j m := by
  intro m
  induction m with
  | nil => simp [btree_get, btree_insert, hne]
  | cons p rest ih =>
    obtain ⟨i, w⟩ := p
    rw [btree_insert]
    by_cases h1 : k < i
    · rw [if_pos h1]
      simp [btree_get, hne]
    · rw [if_neg h1]
      by_cases h2 : k = i
      · subst h2
        rw [if_pos rfl]
        simp [btree_get, hne]
      · rw [if_neg h2]
        simp [btree_get, ih]

theorem speedup_step_get_self (spid : String) (t : ℚ × ℚ × String) (m : List (ℕ × ℚ)) :
    btree_get (u64_cast t.1) (speedup_step spid m t)
      = speedup_upd spid (btree_get (u64_cast t.1) m) t := by
  cases hg : btree_get (u64_cast t.1) m with
  | some val =>
    rw [speedup_step, speedup_upd]
    simp only [hg]
    split <;> exact btree_get_insert_self _ _ _
  | none =>
    rw [speedup_step, speedup_upd]
    simp only [hg]
    exact btree_get_insert_self _ _ _

theorem speedup_step_get_ne (spid : String) (t : ℚ × ℚ × String) (m : List (ℕ × ℚ))
    (k : ℕ) (h : u64_cast t.1 ≠ k) :
    btree_get k (speedup_step spid m t) = btree_get k m := by
  cases hg : btree_get (u64_cast t.1) m with
  | some val =>
    rw [speedup_step]
    simp only [hg]
    split <;> exact btree_get_insert_ne _ _ _ (Ne.symm h) m
  | none =>
    rw [speedup_step]
    simp only [hg]
    exact btree_get_insert_ne _ _ _ (Ne.symm h) m

theorem speedup_foldl_get (spid : String) (k : ℕ) :
    ∀ (ts : List (ℚ × ℚ × String)) (m : List (ℕ × ℚ)),
      btree_get k (ts.foldl (speedup_step spid) m)
        = (ts.filter (fun t => u64_cast t.1 = k)).foldl (speedup_upd spid) (btree_get k m) := by
  intro ts
  induction ts with
  | nil => intro m; rfl
  | cons t ts ih =>
    intro m
    rw [List.foldl_cons, ih]
    by_cases hk : u64_cast t.1 = k
    · rw [List.filter_cons_of_pos (by simpa using hk), List.foldl_cons]
      rw [← hk, speedup_step_get_self]
    · rw [List.filter_cons_of_neg (by simpa using hk)]
      rw [speedup_step_get_ne spid t m k hk]

/-- `round_half_even` is the identity on integers. -/
theorem round_half_even_intCast (n : ℤ) : round_half_even ((n : ℤ) : ℚ) = n := by
  rw [round_half_even]
  simp only [Int.floor_intCast, sub_self]
  norm_num

/-! ### The claims -/

/-- Claim C1: in speedup mode, when exactly two tuples contribute to an
integer key `k` — one whose function identity equals the configured
baseline identity `spid` with mean `b`, and one other with mean `c` — the
final value stored in the speedup map at `k` is `b / c`, in whichever
order the two contributions are processed. -/
theorem speedup_ratio_c1 (spid idc : String) (ts : List (ℚ × ℚ × String))
    (k : ℕ) (xb xc b c : ℚ) (hc : idc ≠ spid)
    (h : ts.filter (fun t => u64_cast t.1 = k) = [(xb, b, spid), (xc, c, idc)]
      ∨ ts.filter (fun t => u64_cast t.1 = k) = [(xc, c, idc), (xb, b, spid)]) :
    btree_get k (speedup_data spid ts) = some (b / c) := by
  have hbase : btree_get k ([] : List (ℕ × ℚ)) = none := rfl
  rcases h with h | h <;>
    rw [speedup_data, speedup_foldl_get, h, hbase] <;>
    simp [speedup_upd, hc]

/-- Witness for C1: baseline mean 2 and comparison mean 4 at parameter 3
give the stored speedup `2 / 4 = 0.5`. -/
theorem speedup_ratio_c1_witness :
    btree_get 3 (speedup_data "base"
      [((3 : ℚ), (2 : ℚ), "base"), ((3 : ℚ), (4 : ℚ), "other")]) = some (2 / 4) :=
  speedup_ratio_c1 "base" "other" _ 3 3 3 2 4 (by decide) (Or.inl (by decide))

/-- Claim C2: grouping cuts the input curve sequence into maximal
consecutive runs of equal function identity — the concatenation of the
runs is the input, adjacent runs have different keys, every run is
non-empty with all members keyed by its key — and the A, A, B, B, A input
yields exactly the three groups A, B, A. -/
theorem grouping_runs_c2 :
    (∀ l : List Curve,
        ((groupRuns (fun c : Curve => c.1.function_id) l).map Prod.snd).flatten = l
        ∧ List.Chain' (fun p q => p.1 ≠ q.1)
            (groupRuns (fun c : Curve => c.1.function_id) l)
        ∧ ∀ p ∈ groupRuns (fun c : Curve => c.1.function_id) l,
            p.2 ≠ [] ∧ ∀ c ∈ p.2, c.1.function_id = p.1)
    ∧ (groupRuns (fun c : Curve => c.1.function_id) runABBA).map Prod.fst
        = [some "A", some "B", some "A"] :=
  ⟨fun l => ⟨groupRuns_flatten _ l, groupRuns_chain _ l, groupRuns_runs _ l⟩,
    by decide⟩

/-- Witness for C2: on the concrete A, A, B, B, A input the groups
flatten back to the input and their keys read A, B, A (three runs, not
two). -/
theorem grouping_runs_c2_witness :
    ((groupRuns (fun c : Curve => c.1.function_id) runABBA).map Prod.snd).flatten = runABBA
    ∧ (groupRuns (fun c : Curve => c.1.function_id) runABBA).map Prod.fst
        = [some "A", some "B", some "A"] :=
  ⟨(grouping_runs_c2.1 runABBA).1, grouping_runs_c2.2⟩

/-- Claim C3: for a KDE output with strictly positive peak density and
non-negative density values, the normalized lane has maximum exactly 1,
every band half-width `v * 0.45` is at most `0.45`, and every lane's band
`(i + 0.5) ± v * 0.45` stays strictly inside its own unit lane
`(i, i + 1)`, so adjacent lanes never overlap. -/
theorem violin_normalization_c3 (ys : List ℚ) (hpos : 0 < sample_max ys)
    (hnn : ∀ y ∈ ys, 0 ≤ y) :
    sample_max (normalize_kde_y ys) = 1
    ∧ ∀ v ∈ normalize_kde_y ys,
        v * 0.45 ≤ 0.45
        ∧ ∀ i : ℕ, (i : ℚ) < ((i : ℚ) + 0.5) - v * 0.45
            ∧ ((i : ℚ) + 0.5) + v * 0.45 < (i : ℚ) + 1 := by
  refine ⟨sample_max_normalize hpos, ?_⟩
  intro v hv
  obtain ⟨h0, h1⟩ := normalize_mem_bounds hpos hnn v hv
  have e45 : (0.45 : ℚ) = 45 / 100 := by norm_num
  refine ⟨?_, ?_⟩
  · nlinarith
  · intro i
    constructor <;> nlinarith

/-- Witness for C3: the KDE densities `[1, 2]` have positive peak 2 and
normalize to peak exactly 1 with all bands inside their lanes. -/
theorem violin_normalization_c3_witness :
    sample_max (normalize_kde_y [1, 2]) = 1
    ∧ ∀ v ∈ normalize_kde_y [1, 2],
        v * 0.45 ≤ 0.45
        ∧ ∀ i : ℕ, (i : ℚ) < ((i : ℚ) + 0.5) - v * 0.45
            ∧ ((i : ℚ) + 0.5) + v * 0.45 < (i : ℚ) + 1 :=
  violin_normalization_c3 [1, 2] (by decide) (by decide)

/-- Claim C4: whenever a non-speedup group's series is produced, its
sequence of X coordinates is non-decreasing (the tuples were sorted by
ascending parameter value). -/
theorem line_sorted_c4 (g : List Curve) (ts : List (ℚ × ℚ))
    (h : line_group_series g = Except.ok ts) :
    List.Chain' (fun a b : ℚ => a ≤ b) (ts.map Prod.fst) := by
  rw [line_group_series] at h
  cases e : group_tuples g with
  | error msg => rw [e] at h; cases h
  | ok ts0 =>
    rw [e] at h
    cases h
    have hp := pairwise_sort_by_x ts0
    exact (List.pairwise_map.mpr hp).chain'

/-- Witness for C4: a group whose parameter values arrive as 5, 3 is
emitted with X coordinates 3, 5 — non-decreasing. -/
theorem line_sorted_c4_witness :
    List.Chain' (fun a b : ℚ => a ≤ b)
      (([((3 : ℚ), mean [2, 4]), ((5 : ℚ), mean [1])]).map Prod.fst) :=
  line_sorted_c4 pair_group _ rfl

/-- Claim C5 (code bug): with no explicit label and the identity escape,
the violin title matches the claimed `"<title>: Violin plot"`, but the
comparison title's suffix in the code is the misspelled `": Comparsion"`,
not the claimed `": Comparison"`. -/
theorem title_suffix_c5 :
    line_title (fun s => s) "" "t" = "t: Comparsion"
    ∧ violin_title (fun s => s) "t" = "t: Violin plot"
    ∧ line_title (fun s => s) "" "t" ≠ "t: Comparison" := by
  decide

/-- Claim C6 counterexample: a degenerate lane whose KDE densities are all
zero (zero peak) is not normalized to a safe default — the division
`0.0 / 0.0` produces NaN for every band value. -/
theorem violin_zero_peak_counterexample_c6 :
    normalize_kde_y_f64 [0, 0] = [F64.nan, F64.nan] ∧ F64.nan ≠ F64.fin 0 := by
  decide

/-- Claim C6 (amended): with an all-zero KDE density list the pipeline
does not panic — the division is total — but every normalized band value
is NaN (`0.0 / 0.0`), which is propagated into the plot instead of a
sanitized invisible band. -/
theorem violin_zero_peak_c6 (ys : List ℚ) (hz : ∀ y ∈ ys, y = 0) :
    normalize_kde_y_f64 ys = ys.map (fun _ => F64.nan) := by
  have hM : sample_max ys = 0 := sample_max_all_zero hz
  rw [normalize_kde_y_f64, hM]
  refine List.map_congr_left ?_
  intro y hy
  rw [hz y hy]
  rfl

/-- Witness for C6: the all-zero density list `[0, 0]` maps to NaN band
values. -/
theorem violin_zero_peak_c6_witness :
    normalize_kde_y_f64 [0, 0] = List.map (fun _ => F64.nan) [0, 0] :=
  violin_zero_peak_c6 [0, 0] (by decide)

/-- Claim C7 counterexample: on the empty curve sequence the comparison
pipeline does not fail — it returns successfully with no series. -/
theorem empty_comparison_ok_c7 :
    line_comparison_run ⟨false, "", ""⟩ [] = Except.ok [] := rfl

/-- Claim C7 (amended): for an empty input curve sequence the violin
operation fails immediately (the unwrap of the first positive x panics),
but the comparison operation does not fail in either mode — it proceeds
to dispatch a plot with no series (one empty series in speedup mode). -/
theorem empty_input_c7 :
    line_comparison_run ⟨false, "", ""⟩ [] = Except.ok []
    ∧ line_comparison_run ⟨true, "base", ""⟩ [] = Except.ok [[]]
    ∧ ∀ kdeF, violin_run kdeF [] = Except.error "unwrap none" :=
  ⟨rfl, rfl, fun _ => rfl⟩

/-- Claim C8 counterexample: the speedup key of parameter value 2.7 is 2
(truncation toward zero by the `as u64` cast), not the nearest integer
3. -/
theorem speedup_key_counterexample_c8 :
    u64_cast (27 / 10 : ℚ) = 2 ∧ round (27 / 10 : ℚ) = 3 ∧ (2 : ℕ) ≠ 3 := by
  refine ⟨?_, ?_, by decide⟩
  · rw [u64_cast]
    rw [if_neg (by norm_num)]
    norm_num [Rat.floor_def]
    decide
  · rw [round_eq]
    norm_num [Rat.floor_def]

/-- Claim C8 (amended): in speedup mode the integer key of a parameter
value `x` is `x` truncated toward zero by the saturating `as u64` cast —
the floor of `x` for in-range non-negative `x` — not nearest-integer
rounding. -/
theorem speedup_key_trunc_c8 (x : ℚ) (h0 : 0 ≤ x) (h1 : x ≤ 2 ^ 64 - 1) :
    (u64_cast x : ℤ) = ⌊x⌋ := by
  rw [u64_cast, if_neg (not_lt.mpr h0)]
  have hfl : ⌊x⌋ ≤ ((2 : ℤ) ^ 64 - 1) := by
    have : (⌊x⌋ : ℚ) ≤ (2 : ℚ) ^ 64 - 1 := le_trans (Int.floor_le x) h1
    exact_mod_cast this
  have hnn : 0 ≤ ⌊x⌋ := Int.floor_nonneg.mpr h0
  have htn : ⌊x⌋.toNat ≤ 2 ^ 64 - 1 := by omega
  rw [min_eq_left htn]
  exact Int.toNat_of_nonneg hnn

/-- Witness for C8 (amended): at 2.7 the key is `⌊2.7⌋ = 2`. -/
theorem speedup_key_trunc_c8_witness :
    (0 : ℚ) ≤ 27 / 10 ∧ (u64_cast (27 / 10 : ℚ) : ℤ) = ⌊(27 / 10 : ℚ)⌋ :=
  ⟨by norm_num, speedup_key_trunc_c8 (27 / 10) (by norm_num) (by norm_num)⟩

/-- Claim C9: the four byte-format examples of the spec hold, and for
every positive byte count the unit picked by `format_bytes`'s thresholds
is the largest of b, Kb, Mb, Gb in which the value is at least 1. -/
theorem format_bytes_c9 :
    format_bytes 512 = "512b"
    ∧ format_bytes 2048 = "2Kb"
    ∧ format_bytes (5 * 1024 * 1024) = "5Mb"
    ∧ format_bytes (3 * 1024 ^ 3) = "3Gb"
    ∧ ∀ b : ℤ, 1 ≤ b → code_unit b = spec_unit b := by
  refine ⟨by decide, ?_, ?_, ?_, ?_⟩
  · rw [format_bytes, if_neg (by decide), if_pos (by decide)]
    rw [show (((2048 : ℤ) : ℚ) / 1024) = ((2 : ℤ) : ℚ) by norm_num]
    rw [fmt_f0, round_half_even_intCast]
    decide
  · rw [format_bytes, if_neg (by decide), if_neg (by decide), if_pos (by decide)]
    rw [show (((5 * 1024 * 1024 : ℤ) : ℚ) / (1024 * 1024)) = ((5 : ℤ) : ℚ) by norm_num]
    rw [fmt_f0, round_half_even_intCast]
    decide
  · rw [format_bytes, if_neg (by decide), if_neg (by decide), if_neg (by decide)]
    rw [show (((3 * 1024 ^ 3 : ℤ) : ℚ) / (1024 * 1024 * 1024)) = ((3 : ℤ) : ℚ) by norm_num]
    rw [fmt_f0, round_half_even_intCast]
    decide
  · intro b hb
    rw [code_unit, spec_unit]
    rcases lt_or_le b 1024 with h1 | h1
    · rw [if_pos h1, if_neg (by omega), if_neg (by omega), if_neg (by omega)]
    · rcases lt_or_le b (1024 * 1024) with h2 | h2
      · rw [if_neg (by omega), if_pos (by omega), if_neg (by omega),
          if_neg (by omega), if_pos (by omega)]
      · rcases lt_or_le b (1024 * 1024 * 1024) with h3 | h3
        · rw [if_neg (by omega), if_neg (by omega), if_pos (by omega),
            if_neg (by omega), if_pos (by omega)]
        · rw [if_neg (by omega), if_neg (by omega), if_neg (by omega),
            if_pos (by omega)]

/-- Witness for C9: at 2048 bytes the chosen unit index agrees with the
largest-unit rule (both pick Kb). -/
theorem format_bytes_c9_witness :
    (1 : ℤ) ≤ 2048 ∧ code_unit 2048 = spec_unit 2048 :=
  ⟨by decide, format_bytes_c9.2.2.2.2 2048 (by decide)⟩

/-- Claim C10: whenever no curve's KDE output contains a strictly
positive x coordinate, the violin operation fails — the unconditional
unwrap of the first element of the positive-x iterator panics — so the
operation has the implicit precondition that some KDE x value is
positive. -/
theorem violin_no_positive_x_c10 (kdeF : List ℚ → List ℚ × List ℚ)
    (curves : List Curve)
    (h : ∀ c ∈ curves, ∀ x ∈ (kdeF c.2).1, ¬(0 < x)) :
    violin_run kdeF curves = Except.error "unwrap none" := by
  have hxs : violin_xs kdeF curves = [] := by
    rw [violin_xs, List.filter_eq_nil_iff]
    intro a ha
    simp only [List.mem_flatten, List.mem_map, List.mem_reverse] at ha
    obtain ⟨l, ⟨p, ⟨c, hc, rfl⟩, rfl⟩, hal⟩ := ha
    simpa using h c hc a hal
  rw [violin_run, hxs]
  rfl

/-- Witness for C10: a single curve whose KDE x values are `[-1, 0]`
(none positive) makes the violin operation fail. -/
theorem violin_no_positive_x_c10_witness :
    violin_run (fun _ => ([-1, 0], [1, 1])) [curve_of (some "A")]
      = Except.error "unwrap none" :=
  violin_no_positive_x_c10 _ _ (by decide)

end Summary
